import Mathlib

/-!
# Verification of the kafka-analyzer dashboard data layer

Shallow embedding of `src/dashboard/utils/data_loader.py` (classes
`KafkaDataLoader` and `HistoricalDataProcessor`) and of the
replication-factor histogram computed in
`src/dashboard/components/charts.py` (`create_replication_factor_chart`).

Modelling conventions:
* A JSON report dictionary becomes the structure `Report`; every key that
  may be absent is an `Option` field (`none` = key absent / JSON null).
* Python dictionary truthiness (`if not data`) is modelled by
  `Report.isFalsy`, true exactly when every field is absent (the empty
  dict) — the `None` case is the `none` of an outer `Option Report`.
* JSON integers are `ℤ`; Python float division is exact division in `ℚ`.
* Time points (file modification times, and the report `timestamp` field
  after `pd.to_datetime` parsing) are modelled as integers `ℤ`; the
  loader's `last_modified` metadata (an ISO rendering of the mtime)
  denotes the same time point.
* Filesystem state is a `DirState`: the directory path together with an
  optional listing (`none` = the directory does not exist).  A listed
  file carries its name, its modification time and the result of parsing
  its contents as JSON (`none` = `json.load` raises).
* `pandas.sort_values` is modelled by a sort (Mathlib's `insertionSort`);
  `sorted(..., key=...)` in `get_all_reports` is Python's stable
  ascending sort, which `insertionSort` implements exactly.
-/

namespace KafkaAnalyzer

/-- One entry of `healthChecks.checks` in a report. -/
structure CheckResult where
  description : Option String
  recommendation : Option String
  status : Option String
deriving DecidableEq

/-- The `healthChecks` sub-object of a report. -/
structure HealthChecks where
  totalChecks : Option ℤ
  passedChecks : Option ℤ
  failedChecks : Option ℤ
  checks : Option (List CheckResult)
deriving DecidableEq

/-- One entry of the `topics` list of a report. -/
structure Topic where
  name : Option String
  partitions : Option ℤ
  replicationFactor : Option ℤ
  isInternal : Option Bool
  errorCode : Option ℤ
deriving DecidableEq

/-- One entry of the `consumerGroups` list of a report. -/
structure ConsumerGroup where
  groupId : Option String
  members : Option ℤ
deriving DecidableEq

/-- One entry of `clusterInfo.brokers`; passed through unmodified. -/
structure Broker where
  nodeId : Option ℤ
deriving DecidableEq

/-- The `clusterInfo` sub-object of a report. -/
structure ClusterInfo where
  clusterId : Option String
  controller : Option String
  brokers : Option (List Broker)
deriving DecidableEq

/-- The optional precomputed `summary` block of a report. -/
structure Summary where
  totalTopics : Option ℤ
  userTopics : Option ℤ
  totalPartitions : Option ℤ
deriving DecidableEq

/-- The `_metadata` block the loader attaches to each loaded report
(`filename`, `filepath`, `last_modified`). -/
structure FileMeta where
  filename : String
  filepath : String
  last_modified : ℤ
deriving DecidableEq

/-- A parsed analysis report (one JSON document).  Every top-level key
may be absent. -/
structure Report where
  timestamp : Option ℤ
  vendor : Option String
  clusterInfo : Option ClusterInfo
  topics : Option (List Topic)
  consumerGroups : Option (List ConsumerGroup)
  healthChecks : Option HealthChecks
  summary : Option Summary
  metadata : Option FileMeta
deriving DecidableEq

/-- Python truthiness of the report dictionary: `not data` is true for
the empty dict, i.e. when every key is absent. -/
def Report.isFalsy (r : Report) : Bool :=
  r.timestamp.isNone && r.vendor.isNone && r.clusterInfo.isNone &&
  r.topics.isNone && r.consumerGroups.isNone && r.healthChecks.isNone &&
  r.summary.isNone && r.metadata.isNone

/-! ## Filesystem model and the report locator -/

/-- A file in the data directory: its basename, its modification time,
and the result of reading and JSON-parsing it (`none` = parse error). -/
structure FileEntry where
  name : String
  mtime : ℤ
  parsed : Option Report
deriving DecidableEq

/-- The data directory: its path, and its listing in OS order, or `none`
when `os.path.exists` is false. -/
structure DirState where
  path : String
  listing : Option (List FileEntry)

/-- Whether a basename matches the glob pattern `kafka-analysis-*.json`:
the name starts with `kafka-analysis-`, ends with `.json`, and is long
enough that prefix and suffix do not overlap (`*` matches any, possibly
empty, sequence of characters).  Stated over the character list of the
string. -/
def matchesGlob (s : String) : Bool :=
  (s.data.take 15 = "kafka-analysis-".data) &&
  (s.data.drop (s.data.length - 5) = ".json".data) &&
  20 ≤ s.data.length

/-- Python's `max(files, key=mtime)`: the first element with maximal
key (later elements replace the current maximum only when strictly
greater), `none` on the empty list. -/
def pyMaxBy (key : FileEntry → ℤ) : List FileEntry → Option FileEntry
  | [] => none
  | f :: fs => some (fs.foldl (fun acc g => if key acc < key g then g else acc) f)

/-- Attach the `_metadata` block to a freshly parsed report
(`data['_metadata'] = {filename, filepath, last_modified}`). -/
def withMeta (dirPath : String) (f : FileEntry) (r : Report) : Report :=
  { r with metadata := some ⟨f.name, dirPath ++ "/" ++ f.name, f.mtime⟩ }

/-- `KafkaDataLoader.get_latest_report`: return `none` when the
directory does not exist, when no file matches the glob, or when the
selected file fails to parse (the surrounding `try` logs and returns
`None`); otherwise parse the matching file with the greatest
modification time and attach metadata. -/
def get_latest_report (d : DirState) : Option Report :=
  match d.listing with
  | none => none
  | some files =>
    match pyMaxBy FileEntry.mtime (files.filter fun f => matchesGlob f.name) with
    | none => none
    | some f => f.parsed.map (withMeta d.path f)

/-- The ordering used by `sorted(json_files, key=os.path.getmtime)`. -/
def fileLe (a b : FileEntry) : Prop := a.mtime ≤ b.mtime

instance : DecidableRel fileLe := fun a b => inferInstanceAs (Decidable (a.mtime ≤ b.mtime))

instance : IsTotal FileEntry fileLe := ⟨fun a b => Int.le_total a.mtime b.mtime⟩

instance : IsTrans FileEntry fileLe := ⟨fun _ _ _ h1 h2 => le_trans h1 h2⟩

/-- `KafkaDataLoader.get_all_reports`: all matching files ascending by
modification time (Python's `sorted` is stable); each file is parsed
individually, and a file whose parse raises is logged and skipped
without aborting the rest. -/
def get_all_reports (d : DirState) : List Report :=
  match d.listing with
  | none => []
  | some files =>
    (List.insertionSort fileLe (files.filter fun f => matchesGlob f.name)).filterMap
      fun f => f.parsed.map (withMeta d.path f)

/-! ## Aggregators -/

/-- `KafkaDataLoader.get_health_score`: `0.0` when the data is falsy or
`healthChecks` is absent; otherwise `passed / total * 100` when
`total > 0`, else `0.0`. -/
def get_health_score (data : Option Report) : ℚ :=
  match data with
  | none => 0
  | some r =>
    if r.isFalsy then 0
    else
      match r.healthChecks with
      | none => 0
      | some hc =>
        let total := hc.totalChecks.getD 0
        let passed := hc.passedChecks.getD 0
        if 0 < total then (passed : ℚ) / (total : ℚ) * 100 else 0

/-- Round-half-to-even on the integers, the rounding mode of Python's
built-in `round`. -/
def roundHalfEven (q : ℚ) : ℤ :=
  if q - ⌊q⌋ < 1 / 2 then ⌊q⌋
  else if 1 / 2 < q - ⌊q⌋ then ⌊q⌋ + 1
  else if 2 ∣ ⌊q⌋ then ⌊q⌋ else ⌊q⌋ + 1

/-- Python's `round(x, 2)`. -/
def round2 (q : ℚ) : ℚ := (roundHalfEven (q * 100) : ℚ) / 100

/-- The dictionary returned by `get_topics_summary` (absence of the
whole dictionary, Python's `{}`, is the `none` of an outer `Option`). -/
structure TopicsSummary where
  total_topics : ℕ
  user_topics : ℕ
  internal_topics : ℕ
  total_partitions : ℤ
  avg_partitions_per_topic : ℚ
  topics_with_errors : ℕ
deriving DecidableEq

/-- `KafkaDataLoader.get_topics_summary`: `{}` on falsy data; otherwise
counts over `data.get('topics', [])` with `round(avg, 2)` applied to
the average partition count. -/
def get_topics_summary (data : Option Report) : Option TopicsSummary :=
  match data with
  | none => none
  | some r =>
    if r.isFalsy then none
    else
      let topics := r.topics.getD []
      let user := topics.filter fun t => !(t.isInternal.getD false)
      let internal := topics.filter fun t => t.isInternal.getD false
      let total_partitions : ℤ := (topics.map fun t => t.partitions.getD 0).sum
      let avg : ℚ :=
        if topics.isEmpty then 0 else (total_partitions : ℚ) / (topics.length : ℚ)
      some
        { total_topics := topics.length
          user_topics := user.length
          internal_topics := internal.length
          total_partitions := total_partitions
          avg_partitions_per_topic := round2 avg
          topics_with_errors := (topics.filter fun t => t.errorCode.getD 0 ≠ 0).length }

/-- The dictionary returned by `get_broker_info`. -/
structure BrokerInfo where
  total_brokers : ℕ
  cluster_id : String
  controller : String
  brokers : List Broker
deriving DecidableEq

/-- `KafkaDataLoader.get_broker_info`: `{}` when the data is falsy or
`clusterInfo` is absent; otherwise a direct projection of `clusterInfo`
with `'Unknown'` defaults. -/
def get_broker_info (data : Option Report) : Option BrokerInfo :=
  match data with
  | none => none
  | some r =>
    if r.isFalsy then none
    else
      match r.clusterInfo with
      | none => none
      | some ci =>
        let brokers := ci.brokers.getD []
        some
          { total_brokers := brokers.length
            cluster_id := ci.clusterId.getD "Unknown"
            controller := ci.controller.getD "Unknown"
            brokers := brokers }

/-- The dictionary returned by `get_consumer_groups_summary`. -/
structure ConsumerGroupsSummary where
  total_groups : ℕ
  active_groups : ℕ
  inactive_groups : ℕ
  groups : List ConsumerGroup
deriving DecidableEq

/-- `KafkaDataLoader.get_consumer_groups_summary`: `{}` when the data is
falsy or `consumerGroups` is absent; a group is active iff
`cg.get('members', 0) > 0`. -/
def get_consumer_groups_summary (data : Option Report) : Option ConsumerGroupsSummary :=
  match data with
  | none => none
  | some r =>
    if r.isFalsy then none
    else
      match r.consumerGroups with
      | none => none
      | some gs =>
        let active := (gs.filter fun cg => 0 < cg.members.getD 0).length
        some
          { total_groups := gs.length
            active_groups := active
            inactive_groups := gs.length - active
            groups := gs }

/-- One row of the list built by `extract_health_checks_details`. -/
structure DetailedCheck where
  id : ℕ
  name : String
  status : String
  message : String
  recommendation : String
deriving DecidableEq

/-- `KafkaDataLoader.extract_health_checks_details`: one output entry
per raw check, in order; `status` is the hard-coded literal `'PASSED'`. -/
def extract_health_checks_details (data : Option Report) : List DetailedCheck :=
  match data with
  | none => []
  | some r =>
    if r.isFalsy then []
    else
      match r.healthChecks with
      | none => []
      | some hc =>
        (hc.checks.getD []).enum.map fun ic =>
          { id := ic.1
            name := "Health Check " ++ toString (ic.1 + 1)
            status := "PASSED"
            message := ic.2.description.getD "No description available"
            recommendation := ic.2.recommendation.getD "No recommendation" }

/-! ## Replication-factor histogram (charts.py) -/

/-- The replication factor the chart reads from a topic:
`topic.get('replicationFactor', 1)`. -/
def rfOf (t : Topic) : ℤ := t.replicationFactor.getD 1

/-- One step of `rf_counts[rf] = rf_counts.get(rf, 0) + 1` on a Python
dict modelled as an insertion-ordered association list: increment the
first entry with the given key, or append a fresh entry. -/
def rfUpdate : List (ℤ × ℕ) → ℤ → List (ℤ × ℕ)
  | [], rf => [(rf, 1)]
  | (k, v) :: rest, rf =>
    if k = rf then (k, v + 1) :: rest else (k, v) :: rfUpdate rest rf

/-- The `rf_counts` dict of `create_replication_factor_chart`: count
topics by replication factor, preserving dict insertion order. -/
def rf_counts (topics : List Topic) : List (ℤ × ℕ) :=
  topics.foldl (fun acc t => rfUpdate acc (rfOf t)) []

/-- Lookup in the association-list model of the dict, `0` when absent. -/
def lookupD : List (ℤ × ℕ) → ℤ → ℕ
  | [], _ => 0
  | p :: rest, k => if p.1 = k then p.2 else lookupD rest k

/-- The distinct values of a list in first-seen order. -/
def firstSeen (l : List ℤ) : List ℤ :=
  l.foldl (fun ks x => if x ∈ ks then ks else ks ++ [x]) []

/-! ## Historical trend processor -/

/-- One row of the `healthScoreTrend` data frame. -/
structure TrendRow where
  timestamp : Option ℤ
  health_score : ℚ
  total_checks : ℤ
  passed_checks : ℤ
  failed_checks : ℤ
deriving DecidableEq

/-- The empty-dict default of `report.get('healthChecks', {})`. -/
def emptyHealthChecks : HealthChecks := ⟨none, none, none, none⟩

/-- The timestamp of a trend row:
`report.get('timestamp', report.get('_metadata', {}).get('last_modified'))`. -/
def trendTimestamp (r : Report) : Option ℤ :=
  match r.timestamp with
  | some t => some t
  | none => r.metadata.map FileMeta.last_modified

/-- The row appended to `trend_data` for one report in
`HistoricalDataProcessor.get_health_score_trend`. -/
def mkTrendRow (r : Report) : TrendRow :=
  { timestamp := trendTimestamp r
    health_score := get_health_score (some r)
    total_checks := (r.healthChecks.getD emptyHealthChecks).totalChecks.getD 0
    passed_checks := (r.healthChecks.getD emptyHealthChecks).passedChecks.getD 0
    failed_checks := (r.healthChecks.getD emptyHealthChecks).failedChecks.getD 0 }

/-- Comparison of parsed timestamps in `df.sort_values('timestamp')`:
missing timestamps (`NaT`) sort last (`na_position='last'`). -/
def tsLeB : Option ℤ → Option ℤ → Bool
  | none, none => true
  | none, some _ => false
  | some _, none => true
  | some a, some b => a ≤ b

/-- The row ordering of `df.sort_values('timestamp')`. -/
def rowLe (a b : TrendRow) : Prop := tsLeB a.timestamp b.timestamp = true

instance : DecidableRel rowLe := fun a b =>
  inferInstanceAs (Decidable (tsLeB a.timestamp b.timestamp = true))

instance : IsTotal TrendRow rowLe := by
  constructor
  rintro ⟨ta, _, _, _, _⟩ ⟨tb, _, _, _, _⟩
  unfold rowLe
  dsimp only
  rcases ta with _ | x <;> rcases tb with _ | y <;> simp [tsLeB] <;> omega

instance : IsTrans TrendRow rowLe := by
  constructor
  rintro ⟨ta, _, _, _, _⟩ ⟨tb, _, _, _, _⟩ ⟨tc, _, _, _, _⟩ h1 h2
  unfold rowLe at *
  dsimp only at *
  rcases ta with _ | x <;> rcases tb with _ | y <;> rcases tc with _ | z <;>
    simp_all [tsLeB] <;> omega

/-- `HistoricalDataProcessor.get_health_score_trend`: one row per
report, then the data frame is sorted ascending by parsed timestamp. -/
def get_health_score_trend (reports : List Report) : List TrendRow :=
  List.insertionSort rowLe (reports.map mkTrendRow)

/-! ## Concrete fixtures used by the witnesses -/

/-- The report with every top-level key absent (the empty JSON dict). -/
def rEmpty : Report := ⟨none, none, none, none, none, none, none, none⟩

/-- 3 of 4 checks passed. -/
def hcC1 : HealthChecks := ⟨some 4, some 3, none, none⟩

def rC1 : Report := { rEmpty with healthChecks := some hcC1 }

/-- A report violating `passedChecks ≤ totalChecks`: 3 of 2 passed. -/
def rC10 : Report := { rEmpty with healthChecks := some ⟨some 2, some 3, none, none⟩ }

/-- A user topic with 3 partitions and an internal topic with 0. -/
def topicsC2 : List Topic :=
  [⟨none, some 3, none, some false, none⟩, ⟨none, some 0, none, some true, none⟩]

def rC2 : Report := { rEmpty with topics := some topicsC2 }

/-- An otherwise-valid report (vendor present) missing every aggregate key. -/
def rC5 : Report := { rEmpty with vendor := some "apache" }

/-- Groups with 0, 5 and 0 members. -/
def groupsC6 : List ConsumerGroup := [⟨none, some 0⟩, ⟨none, some 5⟩, ⟨none, some 0⟩]

def rC6 : Report := { rEmpty with consumerGroups := some groupsC6 }

/-- A check with no description but a failing source status, and a check
with a description but no recommendation. -/
def checksC8 : List CheckResult :=
  [⟨none, some "fix it", some "FAILED"⟩, ⟨some "desc", none, none⟩]

def hcC8 : HealthChecks := ⟨none, none, none, some checksC8⟩

def rC8 : Report := { rEmpty with healthChecks := some hcC8 }

/-- A topic carrying a given replication factor. -/
def mkRF (rf : ℤ) : Topic := ⟨none, none, some rf, none, none⟩

/-- The all-zero summary produced when the `topics` key is absent. -/
def zeroTopicsSummary : TopicsSummary := ⟨0, 0, 0, 0, 0, 0⟩

/-- The modification time recorded in a loaded report's metadata. -/
def reportMtime (r : Report) : ℤ := (r.metadata.map FileMeta.last_modified).getD 0

def rA : Report := { rEmpty with vendor := some "A" }

def rB : Report := { rEmpty with vendor := some "B" }

/-- Alphabetically earliest matching file, but most recently modified. -/
def fA : FileEntry := ⟨"kafka-analysis-a.json", 10, some rA⟩

def fB : FileEntry := ⟨"kafka-analysis-b.json", 5, some rB⟩

/-- A corrupt JSON file: parsing it raises. -/
def fBad : FileEntry := ⟨"kafka-analysis-c.json", 7, none⟩

/-- A file whose name does not match the glob. -/
def fOther : FileEntry := ⟨"notes.txt", 99, some rEmpty⟩

def dirC3 : DirState := ⟨"/data", some [fB, fA, fOther]⟩

def dirC4 : DirState := ⟨"/data", some [fA, fBad, fB]⟩

/-- A report with a late in-file timestamp. -/
def rLate : Report := { rEmpty with timestamp := some 20, healthChecks := some hcC1 }

/-- A report with no `timestamp` field and an early file mtime. -/
def rEarly : Report :=
  { rEmpty with metadata := some ⟨"kafka-analysis-e.json", "/data/kafka-analysis-e.json", 3⟩ }

/-! ## Helper lemmas -/

theorem isFalsy_false_of_healthChecks {r : Report} {hc : HealthChecks}
    (h : r.healthChecks = some hc) : r.isFalsy = false := by
  unfold Report.isFalsy
  simp [h]

theorem isFalsy_false_of_topics {r : Report} {ts : List Topic}
    (h : r.topics = some ts) : r.isFalsy = false := by
  unfold Report.isFalsy
  simp [h]

theorem isFalsy_false_of_consumerGroups {r : Report} {gs : List ConsumerGroup}
    (h : r.consumerGroups = some gs) : r.isFalsy = false := by
  unfold Report.isFalsy
  simp [h]

/-- `get_health_score` on a report whose `healthChecks` key is present. -/
theorem health_score_eq {r : Report} {hc : HealthChecks}
    (h : r.healthChecks = some hc) :
    get_health_score (some r) =
      if 0 < hc.totalChecks.getD 0 then
        (hc.passedChecks.getD 0 : ℚ) / (hc.totalChecks.getD 0 : ℚ) * 100
      else 0 := by
  simp only [get_health_score, isFalsy_false_of_healthChecks h, h,
    Bool.false_eq_true, if_false]

/-- `get_health_score` on a report whose `healthChecks` key is absent. -/
theorem health_score_of_no_healthChecks {r : Report}
    (h : r.healthChecks = none) : get_health_score (some r) = 0 := by
  simp [get_health_score, h]

/-- Python's `round(0, 2)` is `0`. -/
theorem round2_zero : round2 0 = 0 := by
  unfold round2 roundHalfEven
  norm_num

/-! ## Claims -/

/-- C1: for every report, `get_health_score` returns
`passedChecks / totalChecks * 100` when `totalChecks > 0`, and `0` when
`totalChecks = 0` or when the `healthChecks` key is absent, regardless
of the other fields; under the invariant `0 ≤ passedChecks ≤ totalChecks`
the result lies in `[0, 100]`. -/
theorem C1_health_score (r : Report) (hc : HealthChecks)
    (h : r.healthChecks = some hc) :
    (∀ s : Report, s.healthChecks = none → get_health_score (some s) = 0) ∧
    (0 < hc.totalChecks.getD 0 →
      get_health_score (some r) =
        (hc.passedChecks.getD 0 : ℚ) / (hc.totalChecks.getD 0 : ℚ) * 100) ∧
    (hc.totalChecks.getD 0 = 0 → get_health_score (some r) = 0) ∧
    (0 ≤ hc.passedChecks.getD 0 → hc.passedChecks.getD 0 ≤ hc.totalChecks.getD 0 →
      0 ≤ get_health_score (some r) ∧ get_health_score (some r) ≤ 100) := by
  refine ⟨fun s hs => health_score_of_no_healthChecks hs, ?_, ?_, ?_⟩
  · intro ht
    rw [health_score_eq h, if_pos ht]
  · intro ht
    rw [health_score_eq h, if_neg (by omega)]
  · intro hp hpt
    rw [health_score_eq h]
    by_cases ht : 0 < hc.totalChecks.getD 0
    · rw [if_pos ht]
      constructor
      · positivity
      · have h1 : (hc.passedChecks.getD 0 : ℚ) / (hc.totalChecks.getD 0 : ℚ) ≤ 1 := by
          rw [div_le_one (by exact_mod_cast ht)]
          exact_mod_cast hpt
        nlinarith
    · rw [if_neg ht]
      norm_num

/-- Witness for C1 on a concrete report with 3 of 4 checks passed. -/
theorem C1_health_score_witness :
    get_health_score (some rC1) = (3 : ℚ) / 4 * 100 ∧
    0 ≤ get_health_score (some rC1) ∧ get_health_score (some rC1) ≤ 100 := by
  obtain ⟨_, h2, _, h4⟩ := C1_health_score rC1 hcC1 rfl
  exact ⟨h2 (by decide), h4 (by decide) (by decide)⟩

/-- C10: `get_health_score` does not clamp to 100: on a report with
`passedChecks = 3 > totalChecks = 2 > 0` (violating the data-model
invariant), the score is 150 > 100. -/
theorem C10_no_upper_clamp :
    (0 : ℤ) < 2 ∧ (2 : ℤ) < 3 ∧
    get_health_score (some rC10) = 150 ∧ 100 < get_health_score (some rC10) := by
  refine ⟨by norm_num, by norm_num, ?_, ?_⟩ <;>
    · rw [@health_score_eq rC10 ⟨some 2, some 3, none, none⟩ rfl]
      norm_num

/-- C5: on an otherwise-valid (non-empty) report missing an expected
top-level key, every accessor returns its defined zero-value default for
that key instead of failing: score 0 and no detail rows without
`healthChecks`, the all-zero summary without `topics`, and the empty
dict (`none`) without `clusterInfo` / `consumerGroups`.  Totality of
these Lean functions is the never-raises part. -/
theorem C5_missing_key_defaults (r : Report) (hne : r.isFalsy = false) :
    (r.healthChecks = none →
      get_health_score (some r) = 0 ∧ extract_health_checks_details (some r) = []) ∧
    (r.topics = none → get_topics_summary (some r) = some zeroTopicsSummary) ∧
    (r.clusterInfo = none → get_broker_info (some r) = none) ∧
    (r.consumerGroups = none → get_consumer_groups_summary (some r) = none) := by
  refine ⟨fun h => ⟨health_score_of_no_healthChecks h, ?_⟩, fun h => ?_, fun h => ?_, fun h => ?_⟩
  · simp [extract_health_checks_details, hne, h]
  · simp [get_topics_summary, hne, h, zeroTopicsSummary, round2_zero]
  · simp [get_broker_info, hne, h]
  · simp [get_consumer_groups_summary, hne, h]

/-- Witness for C5 on a concrete report carrying only a vendor. -/
theorem C5_missing_key_defaults_witness :
    get_health_score (some rC5) = 0 ∧ extract_health_checks_details (some rC5) = [] ∧
    get_topics_summary (some rC5) = some zeroTopicsSummary ∧
    get_broker_info (some rC5) = none ∧
    get_consumer_groups_summary (some rC5) = none := by
  obtain ⟨h1, h2, h3, h4⟩ := C5_missing_key_defaults rC5 (by decide)
  obtain ⟨h1a, h1b⟩ := h1 rfl
  exact ⟨h1a, h1b, h2 rfl, h3 rfl, h4 rfl⟩

/-- C6: for every report whose `consumerGroups` key holds a list,
`get_consumer_groups_summary` returns the list's length as `total`, the
number of groups with `members > 0` (absent treated as 0) as
`activeCount`, the difference as `inactiveCount`, and the groups
themselves. -/
theorem C6_consumer_groups_summary (r : Report) (gs : List ConsumerGroup)
    (h : r.consumerGroups = some gs) :
    ∃ s, get_consumer_groups_summary (some r) = some s ∧
      s.total_groups = gs.length ∧
      s.active_groups = gs.countP (fun g => 0 < g.members.getD 0) ∧
      s.inactive_groups = s.total_groups - s.active_groups ∧
      s.groups = gs := by
  simp only [get_consumer_groups_summary, isFalsy_false_of_consumerGroups h, h,
    Bool.false_eq_true, if_false]
  refine ⟨_, rfl, rfl, ?_, rfl, rfl⟩
  simp [List.countP_eq_length_filter]

/-- Witness for C6 on groups with 0, 5 and 0 members:
`activeCount = 1`, `inactiveCount = 2`, `total = 3`. -/
theorem C6_consumer_groups_summary_witness :
    ∃ s, get_consumer_groups_summary (some rC6) = some s ∧
      s.total_groups = 3 ∧ s.active_groups = 1 ∧ s.inactive_groups = 2 := by
  obtain ⟨s, hs, h1, h2, h3, _⟩ := C6_consumer_groups_summary rC6 groupsC6 rfl
  refine ⟨s, hs, ?_, ?_, ?_⟩
  · rw [h1]; rfl
  · rw [h2]; rfl
  · rw [h3, h1, h2]; rfl

/-- Python's `round(3/2, 2)` is exactly `3/2`. -/
theorem round2_three_halves : round2 (3 / 2) = 3 / 2 := by
  unfold round2 roundHalfEven
  rw [show (3 : ℚ) / 2 * 100 = ((150 : ℤ) : ℚ) by norm_num, Int.floor_intCast]
  norm_num

/-- C2: for every report whose `topics` key holds a list,
`get_topics_summary` returns `total` = length, `userCount` = number of
topics with `isInternal` false or absent, `internalCount` = number with
`isInternal` true, `totalPartitions` = sum of `partitions` (absent as
0), `avgPartitionsPerTopic` = `totalPartitions / total` rounded to 2
decimals when `total > 0` and `0` on the empty list, and
`topicsWithErrors` = number of topics with nonzero `errorCode`. -/
theorem C2_topics_summary (r : Report) (ts : List Topic) (h : r.topics = some ts) :
    ∃ s, get_topics_summary (some r) = some s ∧
      s.total_topics = ts.length ∧
      s.user_topics = ts.countP (fun t => !(t.isInternal.getD false)) ∧
      s.internal_topics = ts.countP (fun t => t.isInternal.getD false) ∧
      s.total_partitions = (ts.map fun t => t.partitions.getD 0).sum ∧
      (0 < ts.length →
        s.avg_partitions_per_topic = round2 ((s.total_partitions : ℚ) / (ts.length : ℚ))) ∧
      (ts = [] → s.avg_partitions_per_topic = 0) ∧
      s.topics_with_errors = ts.countP (fun t => t.errorCode.getD 0 ≠ 0) := by
  simp only [get_topics_summary, isFalsy_false_of_topics h, h, Bool.false_eq_true,
    if_false, Option.getD_some]
  refine ⟨_, rfl, rfl, ?_, ?_, rfl, ?_, ?_, ?_⟩
  · simp [List.countP_eq_length_filter]
  · simp [List.countP_eq_length_filter]
  · intro hlen
    have hne : ts.isEmpty = false := by
      cases ts
      · simp at hlen
      · rfl
    simp [hne]
  · intro hnil
    subst hnil
    simp [round2_zero]
  · simp [List.countP_eq_length_filter]

/-- Witness for C2 on
`[{partitions: 3, isInternal: false}, {partitions: 0, isInternal: true}]`:
total 2, userCount 1, internalCount 1, totalPartitions 3, average 1.5. -/
theorem C2_topics_summary_witness :
    ∃ s, get_topics_summary (some rC2) = some s ∧
      s.total_topics = 2 ∧ s.user_topics = 1 ∧ s.internal_topics = 1 ∧
      s.total_partitions = 3 ∧ s.avg_partitions_per_topic = 3 / 2 := by
  obtain ⟨s, hs, h1, h2, h3, h4, h5, _, _⟩ := C2_topics_summary rC2 topicsC2 rfl
  refine ⟨s, hs, by rw [h1]; rfl, by rw [h2]; rfl, by rw [h3]; rfl, by rw [h4]; rfl, ?_⟩
  have h6 := h5 (by norm_num [topicsC2])
  rw [h6, h4]
  rw [show (((topicsC2.map fun t => t.partitions.getD 0).sum : ℤ) : ℚ) /
      ((topicsC2.length : ℕ) : ℚ) = 3 / 2 by norm_num [topicsC2]]
  exact round2_three_halves

/-- C8: for every report with a `healthChecks.checks` list,
`extract_health_checks_details` returns one entry per raw check in
order, with `id` the zero-based position, `name` = `"Health Check "`
followed by `id + 1`, `status` always the literal `'PASSED'` regardless
of the check's own status, `message` the check's description or
`'No description available'`, and `recommendation` the check's
recommendation or `'No recommendation'`. -/
theorem C8_health_check_details (r : Report) (hc : HealthChecks) (cs : List CheckResult)
    (h1 : r.healthChecks = some hc) (h2 : hc.checks = some cs) :
    (extract_health_checks_details (some r)).length = cs.length ∧
    ∀ i : ℕ, ∀ c : CheckResult, cs[i]? = some c →
      (extract_health_checks_details (some r))[i]? = some
        ⟨i, "Health Check " ++ toString (i + 1), "PASSED",
          c.description.getD "No description available",
          c.recommendation.getD "No recommendation"⟩ := by
  have heq : extract_health_checks_details (some r) =
      cs.enum.map fun ic =>
        ⟨ic.1, "Health Check " ++ toString (ic.1 + 1), "PASSED",
          ic.2.description.getD "No description available",
          ic.2.recommendation.getD "No recommendation"⟩ := by
    simp only [extract_health_checks_details, isFalsy_false_of_healthChecks h1, h1, h2,
      Bool.false_eq_true, if_false, Option.getD_some]
  rw [heq]
  refine ⟨by simp, ?_⟩
  intro i c hic
  rw [List.getElem?_map, List.getElem?_enum, hic]
  rfl

/-- Witness for C8: a check with a failing source status and no
description, and a check with no recommendation. -/
theorem C8_health_check_details_witness :
    (extract_health_checks_details (some rC8)).length = 2 ∧
    (extract_health_checks_details (some rC8))[0]? = some
      ⟨0, "Health Check 1", "PASSED", "No description available", "fix it"⟩ ∧
    (extract_health_checks_details (some rC8))[1]? = some
      ⟨1, "Health Check 2", "PASSED", "desc", "No recommendation"⟩ := by
  obtain ⟨hlen, hidx⟩ := C8_health_check_details rC8 hcC8 checksC8 rfl rfl
  refine ⟨by rw [hlen]; rfl, ?_, ?_⟩
  · rw [hidx 0 ⟨none, some "fix it", some "FAILED"⟩ rfl]
    rfl
  · rw [hidx 1 ⟨some "desc", none, none⟩ rfl]
    rfl

/-! ### Association-list lemmas for the replication-factor histogram -/

theorem rfUpdate_keys (acc : List (ℤ × ℕ)) (k : ℤ) :
    (rfUpdate acc k).map Prod.fst =
      if k ∈ acc.map Prod.fst then acc.map Prod.fst else acc.map Prod.fst ++ [k] := by
  induction acc with
  | nil => simp [rfUpdate]
  | cons p rest ih =>
    obtain ⟨a, v⟩ := p
    by_cases hak : a = k
    · subst hak
      simp [rfUpdate]
    · have hka : ¬ k = a := fun hh => hak hh.symm
      rw [show rfUpdate ((a, v) :: rest) k = (a, v) :: rfUpdate rest k by
        simp [rfUpdate, hak]]
      by_cases hk : k ∈ rest.map Prod.fst <;>
        simp [List.map_cons, ih, hk, hka, List.mem_cons]

theorem lookupD_rfUpdate_self (acc : List (ℤ × ℕ)) (k : ℤ) :
    lookupD (rfUpdate acc k) k = lookupD acc k + 1 := by
  induction acc with
  | nil => simp [rfUpdate, lookupD]
  | cons p rest ih =>
    obtain ⟨a, v⟩ := p
    by_cases hak : a = k
    · subst hak
      simp [rfUpdate, lookupD]
    · simp [rfUpdate, lookupD, hak, ih]

theorem lookupD_rfUpdate_ne (acc : List (ℤ × ℕ)) {k j : ℤ} (hjk : j ≠ k) :
    lookupD (rfUpdate acc k) j = lookupD acc j := by
  induction acc with
  | nil =>
    simp [rfUpdate, lookupD]
    omega
  | cons p rest ih =>
    obtain ⟨a, v⟩ := p
    by_cases hak : a = k
    · subst hak
      simp [rfUpdate, lookupD, Ne.symm hjk]
    · simp [rfUpdate, lookupD, hak, ih]

theorem lookupD_rfFold (l : List ℤ) (acc : List (ℤ × ℕ)) (k : ℤ) :
    lookupD (l.foldl rfUpdate acc) k = lookupD acc k + l.count k := by
  induction l generalizing acc with
  | nil => simp
  | cons x xs ih =>
    rw [List.foldl_cons, ih]
    by_cases hxk : x = k
    · subst hxk
      rw [lookupD_rfUpdate_self]
      simp [List.count_cons]
      omega
    · rw [lookupD_rfUpdate_ne _ (fun h => hxk h.symm)]
      simp [List.count_cons, hxk]

theorem keys_rfFold (l : List ℤ) (acc : List (ℤ × ℕ)) :
    (l.foldl rfUpdate acc).map Prod.fst =
      l.foldl (fun ks x => if x ∈ ks then ks else ks ++ [x]) (acc.map Prod.fst) := by
  induction l generalizing acc with
  | nil => rfl
  | cons x xs ih =>
    rw [List.foldl_cons, List.foldl_cons, ih, rfUpdate_keys]

theorem mem_seenFold (l : List ℤ) (ks : List ℤ) (k : ℤ) :
    k ∈ l.foldl (fun ks x => if x ∈ ks then ks else ks ++ [x]) ks ↔ k ∈ ks ∨ k ∈ l := by
  induction l generalizing ks with
  | nil => simp
  | cons x xs ih =>
    rw [List.foldl_cons]
    by_cases hx : x ∈ ks
    · rw [if_pos hx, ih]
      constructor
      · rintro (h | h)
        · exact Or.inl h
        · exact Or.inr (List.mem_cons_of_mem _ h)
      · rintro (h | h)
        · exact Or.inl h
        · rcases List.mem_cons.mp h with rfl | h2
          · exact Or.inl hx
          · exact Or.inr h2
    · rw [if_neg hx, ih]
      constructor
      · rintro (h | h)
        · rcases List.mem_append.mp h with h1 | h1
          · exact Or.inl h1
          · simp only [List.mem_singleton] at h1
            subst h1
            exact Or.inr (List.mem_cons_self _ _)
        · exact Or.inr (List.mem_cons_of_mem _ h)
      · rintro (h | h)
        · exact Or.inl (List.mem_append.mpr (Or.inl h))
        · rcases List.mem_cons.mp h with rfl | h2
          · exact Or.inl (List.mem_append.mpr (Or.inr (List.mem_singleton.mpr rfl)))
          · exact Or.inr h2

/-- C7: for every list of topics, the replication-factor histogram maps
each distinct RF value (absent read as 1) to the number of topics
carrying it, with insertion order equal to the first-seen order of
distinct RF values scanning left to right; on RFs `[3, 1, 3, 2]` it is
the insertion-ordered mapping `{3: 2, 1: 1, 2: 1}`. -/
theorem C7_rf_histogram (topics : List Topic) :
    (rf_counts topics).map Prod.fst = firstSeen (topics.map rfOf) ∧
    (∀ k : ℤ, lookupD (rf_counts topics) k = (topics.map rfOf).count k) ∧
    (∀ k : ℤ, (k ∈ (rf_counts topics).map Prod.fst ↔ k ∈ topics.map rfOf)) ∧
    rf_counts [mkRF 3, mkRF 1, mkRF 3, mkRF 2] = [(3, 2), (1, 1), (2, 1)] := by
  have hfold : rf_counts topics = (topics.map rfOf).foldl rfUpdate [] := by
    unfold rf_counts
    rw [List.foldl_map]
  have hkeys : (rf_counts topics).map Prod.fst = firstSeen (topics.map rfOf) := by
    rw [hfold, keys_rfFold]
    rfl
  refine ⟨hkeys, ?_, ?_, by decide⟩
  · intro k
    rw [hfold, lookupD_rfFold]
    simp [lookupD]
  · intro k
    rw [hkeys]
    unfold firstSeen
    rw [mem_seenFold]
    simp

/-! ### Locator lemmas -/

/-- The fold inside `pyMaxBy` produces an element of the input list
carrying the greatest key (the first such element, on ties). -/
theorem foldl_pyMax_spec (key : FileEntry → ℤ) (as : List FileEntry) (a : FileEntry) :
    (as.foldl (fun acc g => if key acc < key g then g else acc) a = a ∨
      as.foldl (fun acc g => if key acc < key g then g else acc) a ∈ as) ∧
    key a ≤ key (as.foldl (fun acc g => if key acc < key g then g else acc) a) ∧
    ∀ g ∈ as, key g ≤ key (as.foldl (fun acc g => if key acc < key g then g else acc) a) := by
  induction as generalizing a with
  | nil => simp
  | cons b bs ih =>
    rw [List.foldl_cons]
    by_cases h : key a < key b
    · rw [if_pos h]
      obtain ⟨hmem, hle, hall⟩ := ih b
      refine ⟨?_, le_trans (le_of_lt h) hle, ?_⟩
      · rcases hmem with h1 | h1
        · rw [h1]
          exact Or.inr (List.mem_cons_self _ _)
        · exact Or.inr (List.mem_cons_of_mem _ h1)
      · intro g hg
        rcases List.mem_cons.mp hg with rfl | h2
        · exact hle
        · exact hall g h2
    · rw [if_neg h]
      obtain ⟨hmem, hle, hall⟩ := ih a
      refine ⟨?_, hle, ?_⟩
      · rcases hmem with h1 | h1
        · exact Or.inl h1
        · exact Or.inr (List.mem_cons_of_mem _ h1)
      · intro g hg
        rcases List.mem_cons.mp hg with rfl | h2
        · exact le_trans (le_of_not_lt h) hle
        · exact hall g h2

/-- `pyMaxBy` returns a member of the list with the greatest key. -/
theorem pyMaxBy_spec (key : FileEntry → ℤ) (l : List FileEntry) (f : FileEntry)
    (h : pyMaxBy key l = some f) : f ∈ l ∧ ∀ g ∈ l, key g ≤ key f := by
  match l with
  | [] => simp [pyMaxBy] at h
  | a :: as =>
    have hf : as.foldl (fun acc g => if key acc < key g then g else acc) a = f := by
      simpa [pyMaxBy] using h
    obtain ⟨hmem, hle, hall⟩ := foldl_pyMax_spec key as a
    rw [hf] at hmem hle hall
    constructor
    · rcases hmem with rfl | h1
      · exact List.mem_cons_self _ _
      · exact List.mem_cons_of_mem _ h1
    · intro g hg
      rcases List.mem_cons.mp hg with rfl | h2
      · exact hle
      · exact hall g h2

/-- C3: `get_latest_report` is absent when the directory does not exist,
when no file matches `kafka-analysis-*.json`, or when the selected file
fails to parse (failing soft); otherwise it is the parsed content (with
metadata) of the matching file with the greatest modification time,
regardless of name order. -/
theorem C3_latest_report (d : DirState) (files : List FileEntry) (f : FileEntry) (r : Report) :
    (d.listing = none → get_latest_report d = none) ∧
    (d.listing = some files → files.filter (fun g => matchesGlob g.name) = [] →
      get_latest_report d = none) ∧
    (d.listing = some files →
      pyMaxBy FileEntry.mtime (files.filter fun g => matchesGlob g.name) = some f →
      (f.parsed = none → get_latest_report d = none) ∧
      (f.parsed = some r →
        get_latest_report d = some (withMeta d.path f r) ∧
        f ∈ files ∧ matchesGlob f.name = true ∧
        ∀ g ∈ files, matchesGlob g.name = true → g.mtime ≤ f.mtime)) := by
  refine ⟨fun h => ?_, fun h hfil => ?_, fun h hmax => ⟨fun hp => ?_, fun hp => ?_⟩⟩
  · simp [get_latest_report, h]
  · simp [get_latest_report, h, hfil, pyMaxBy]
  · simp [get_latest_report, h, hmax, hp]
  · refine ⟨by simp [get_latest_report, h, hmax, hp], ?_⟩
    obtain ⟨hmem, hall⟩ := pyMaxBy_spec _ _ _ hmax
    rw [List.mem_filter] at hmem
    refine ⟨hmem.1, hmem.2, ?_⟩
    intro g hg hglob
    exact hall g (List.mem_filter.mpr ⟨hg, hglob⟩)

/-- Witness for C3: in a directory with two matching files and one
non-matching file, the alphabetically earlier matching file with the
greater mtime is returned. -/
theorem C3_latest_report_witness :
    get_latest_report dirC3 = some (withMeta "/data" fA rA) ∧
    fA ∈ [fB, fA, fOther] ∧ matchesGlob fA.name = true ∧
    ∀ g ∈ [fB, fA, fOther], matchesGlob g.name = true → g.mtime ≤ fA.mtime :=
  ((C3_latest_report dirC3 [fB, fA, fOther] fA rA).2.2 rfl (by decide)).2 rfl

/-- C4: `get_all_reports` returns the parsed matching files ascending by
modification time, skipping exactly the files that fail to parse,
without raising; the fourth conjunct runs it on a directory with one
corrupt and two valid files, yielding exactly the two valid parsed
reports. -/
theorem C4_all_reports (d : DirState) (files : List FileEntry) (h : d.listing = some files) :
    ((get_all_reports d).map reportMtime).Pairwise (· ≤ ·) ∧
    (get_all_reports d).Perm
      ((files.filter fun f => matchesGlob f.name).filterMap
        fun f => f.parsed.map (withMeta d.path f)) ∧
    (∀ f rr, f ∈ files → matchesGlob f.name = true → f.parsed = some rr →
      withMeta d.path f rr ∈ get_all_reports d) ∧
    get_all_reports dirC4 = [withMeta "/data" fB rB, withMeta "/data" fA rA] := by
  have hdef : get_all_reports d =
      (List.insertionSort fileLe (files.filter fun f => matchesGlob f.name)).filterMap
        (fun f => f.parsed.map (withMeta d.path f)) := by
    simp [get_all_reports, h]
  refine ⟨?_, ?_, ?_, by decide⟩
  · rw [hdef, List.pairwise_map, List.pairwise_filterMap]
    have hsorted := List.sorted_insertionSort fileLe (files.filter fun f => matchesGlob f.name)
    refine hsorted.imp ?_
    intro a b hab
    intro x hx y hy
    simp only [Option.mem_def] at hx hy
    obtain ⟨ra, hra, hxa⟩ := Option.map_eq_some'.mp hx
    obtain ⟨rb, hrb, hyb⟩ := Option.map_eq_some'.mp hy
    subst hxa
    subst hyb
    simpa [reportMtime, withMeta] using hab
  · rw [hdef]
    exact (List.perm_insertionSort fileLe _).filterMap _
  · intro f rr hf hglob hparse
    rw [hdef]
    apply List.mem_filterMap.mpr
    refine ⟨f, ?_, by rw [hparse]; rfl⟩
    rw [(List.perm_insertionSort fileLe _).mem_iff]
    exact List.mem_filter.mpr ⟨hf, hglob⟩

/-- Witness for C4 on the concrete three-file directory. -/
theorem C4_all_reports_witness :
    ((get_all_reports dirC4).map reportMtime).Pairwise (· ≤ ·) ∧
    (get_all_reports dirC4).Perm
      (([fA, fBad, fB].filter fun f => matchesGlob f.name).filterMap
        fun f => f.parsed.map (withMeta "/data" f)) ∧
    get_all_reports dirC4 = [withMeta "/data" fB rB, withMeta "/data" fA rA] := by
  obtain ⟨h1, h2, _, h4⟩ := C4_all_reports dirC4 [fA, fBad, fB] rfl
  exact ⟨h1, h2, h4⟩

/-- C9: `get_health_score_trend` emits one row per report (a
permutation of the per-report rows), sorted ascending by parsed
timestamp; each row's timestamp is the report's `timestamp` field or,
when absent, the load metadata's `last_modified`, and its score is
`get_health_score` of the report.  The final conjunct shows the sort on
two out-of-order reports. -/
theorem C9_health_score_trend (reports : List Report) :
    ((get_health_score_trend reports).map TrendRow.timestamp).Pairwise
      (fun a b => tsLeB a b = true) ∧
    (get_health_score_trend reports).Perm (reports.map mkTrendRow) ∧
    (∀ r : Report, (mkTrendRow r).timestamp =
      match r.timestamp with
      | some t => some t
      | none => r.metadata.map FileMeta.last_modified) ∧
    (∀ r : Report, (mkTrendRow r).health_score = get_health_score (some r)) ∧
    get_health_score_trend [rLate, rEarly] = [mkTrendRow rEarly, mkTrendRow rLate] := by
  refine ⟨?_, ?_, fun r => rfl, fun r => rfl, ?_⟩
  · rw [List.pairwise_map]
    exact List.sorted_insertionSort rowLe (reports.map mkTrendRow)
  · exact List.perm_insertionSort rowLe _
  · have hcmp : ¬ rowLe (mkTrendRow rLate) (mkTrendRow rEarly) := by
      unfold rowLe mkTrendRow trendTimestamp rLate rEarly rEmpty
      decide
    have hstep : get_health_score_trend [rLate, rEarly] =
        List.orderedInsert rowLe (mkTrendRow rLate) [mkTrendRow rEarly] := rfl
    rw [hstep]
    simp [List.orderedInsert, hcmp]

end KafkaAnalyzer
